import Mathlib

/-!
# Verification of the orch execution engine core

A shallow embedding of the event-sourced execution engine:
the ent-backed event store (`pkg/store/entstore/store.go`), the
reducer/effect runner (`pkg/runtime/runner.go`), the tool registry's
safe-invoke path (`pkg/agent/registry.go`), the compact error model
(`pkg/errmodel/errmodel.go`) and the MCP bridge client
(`pkg/mcpclient/mcp_client_sdk.go`).

Wall-clock timestamps are dropped from the records (no claim depends on
them); the nanosecond value used to synthesize an event id for an
incoming event with empty id is passed in explicitly.
-/

namespace Orch

/-- A JSON document value, as produced by Go's `encoding/json` for the
`any`-typed payloads flowing through the engine.  Objects keep their
fields as an association list (Go marshals maps with sorted keys; the
embedding compares objects structurally). -/
inductive JsonVal where
  | obj (fields : List (String × JsonVal))
  | arr (elems : List JsonVal)
  | str (s : String)
  | num (n : Int)
  | bool (b : Bool)
  | null
deriving Repr

/-- JSON object fields: the result of unmarshalling into `map[string]any`. -/
abbrev JsonObj := List (String × JsonVal)

/-- The raw bytes of a `json.RawMessage` at the store interface boundary,
classified by what `json.Unmarshal` sees: empty (nil or zero length),
a well-formed JSON document, or bytes that are not valid JSON. -/
inductive Bytes where
  | empty
  | json (v : JsonVal)
  | invalid
deriving Repr

/-- Go errors as they travel through the engine: either a compact
`errmodel.Error` or a plain error built with `errors.New`/`fmt.Errorf`. -/
inductive GoError where
  | compact (category code message : String) (context : List (String × String))
  | plain (msg : String)
deriving Repr

/-! ## Compact error model (`pkg/errmodel/errmodel.go`) -/

namespace errmodel

/-- `truncate` trims a string to `max` characters
(`errmodel.go`, func `truncate`). -/
def truncate (s : String) (max : Nat) : String :=
  if max = 0 ∨ s.length ≤ max then s
  else if max ≤ 3 then (s.toList.take max).asString
  else (s.toList.take (max - 3)).asString ++ "..."

/-- `truncateContext` trims long string values in the context map
(`errmodel.go`, func `truncateContext`); all context values appearing in
the verified paths are strings. -/
def truncateContext (ctx : List (String × String)) : List (String × String) :=
  ctx.map fun kv => (kv.1, truncate kv.2 256)

/-- `errmodel.New` (without causes, which none of the verified call
sites supply). -/
def New (category code message : String) (ctx : List (String × String)) : GoError :=
  .compact category code (truncate message 512)
    (if ctx.isEmpty then [] else truncateContext ctx)

/-- `errmodel.Validation`. -/
def Validation (code message : String) (ctx : List (String × String)) : GoError :=
  New "validation" code message ctx

/-- `errmodel.Policy`. -/
def Policy (code message : String) (ctx : List (String × String)) : GoError :=
  New "policy" code message ctx

/-- `errmodel.System` (cause dropped; causes carry no information any
claim depends on). -/
def System (code message : String) (ctx : List (String × String)) : GoError :=
  New "system" code message ctx

/-- `errmodel.From`: a compact error is returned as-is, anything else
becomes `system/internal` with the message truncated to 512 characters. -/
def From (e : GoError) : GoError :=
  match e with
  | .compact c k m ctx => .compact c k m ctx
  | .plain m => .compact "system" "internal" (truncate m 512) []

/-- The category of an error once converted to a compact error. -/
def categoryOf (e : GoError) : String :=
  match From e with
  | .compact c _ _ _ => c
  | .plain _ => ""

/-- The code of an error once converted to a compact error. -/
def codeOf (e : GoError) : String :=
  match From e with
  | .compact _ k _ _ => k
  | .plain _ => ""

end errmodel

/-! ## Store records (`pkg/store` interface types, `internal/ent/schema`) -/

/-- `store.EventRecord` as persisted by entstore: the payload column is
an optional JSON object (`field.JSON("payload", map[string]any{})`).
`CreatedAt` is dropped (wall clock). -/
structure EventRecord where
  eventID : String
  runID : String
  seq : Nat
  type : String
  payload : Option JsonObj
deriving Repr

/-- `store.SnapshotRecord` as persisted: state is an optional JSON
object column. -/
structure SnapshotRecord where
  snapshotID : String
  runID : String
  uptoSeq : Nat
  state : Option JsonObj
deriving Repr

/-- The event-record input to `AppendEvent` at the interface boundary:
payload is raw JSON bytes, seq is engine-assigned. -/
structure AppendInput where
  eventID : String
  runID : String
  type : String
  payload : Bytes
deriving Repr

/-- The database state backing the ent store: the `events` and
`snapshots` tables, rows in insertion order. -/
structure StoreState where
  events : List EventRecord
  snapshots : List SnapshotRecord
deriving Repr

def StoreState.empty : StoreState := ⟨[], []⟩

/-! ## entstore operations (`pkg/store/entstore/store.go`) -/

namespace entstore

/-- The `map[string]any` unmarshalling step of `AppendEvent`
(`store.go:120-125`): empty bytes are skipped, a JSON object fills the
map, JSON `null` leaves the map `nil` with no error (Go's documented
`Unmarshal` behaviour), any other JSON document and any invalid bytes
fail, producing the `invalid payload json` error. -/
def unmarshalIntoMap (b : Bytes) : Except String (Option JsonObj) :=
  match b with
  | .empty => .ok none
  | .json (.obj f) => .ok (some f)
  | .json .null => .ok none
  | .json _ => .error "json: cannot unmarshal value into Go value of type map[string]interface {}"
  | .invalid => .error "invalid character"

/-- `ORDER BY seq DESC LIMIT 1` over a row list: the row with the
largest seq (ties cannot occur for one run by the unique
`(run_id, seq)` index). -/
def maxSeqRow (evs : List EventRecord) : Option EventRecord :=
  evs.foldl (fun acc e =>
    match acc with
    | none => some e
    | some a => if a.seq < e.seq then some e else acc) none

/-- The rows of the events table belonging to one run, in insertion
order. -/
def runRows (s : StoreState) (runID : String) : List EventRecord :=
  s.events.filter (fun e => e.runID == runID)

/-- `AppendEvent` (`store.go:99-177`): compute `max(seq)+1` for the run
(1 when the run has no events), unmarshal the payload, insert; a
unique-constraint violation on `event_id` returns the pre-existing
record with no error (idempotent append).  ent's `NotEmpty` validators
on `event_id`, `run_id` and `type` reject empty strings at `Save`. -/
def AppendEvent (s : StoreState) (e : AppendInput) :
    Except GoError (EventRecord × StoreState) :=
  let nextSeq : Nat :=
    match maxSeqRow (runRows s e.runID) with
    | none => 1
    | some last => last.seq + 1
  match unmarshalIntoMap e.payload with
  | .error m => .error (.plain ("invalid payload json: " ++ m))
  | .ok payload =>
    if e.eventID = "" ∨ e.runID = "" ∨ e.type = "" then
      .error (.plain "ent: validator failed")
    else
      match s.events.find? (fun r => r.eventID == e.eventID) with
      | some existing => .ok (existing, s)
      | none =>
        let row : EventRecord :=
          { eventID := e.eventID, runID := e.runID, seq := nextSeq
            type := e.type, payload := payload }
        .ok (row, { s with events := s.events ++ [row] })

/-- Insertion of one record into a seq-ascending list
(the `ORDER BY seq ASC` of `ListEvents`). -/
def insertBySeq (e : EventRecord) : List EventRecord → List EventRecord
  | [] => [e]
  | x :: xs => if e.seq ≤ x.seq then e :: x :: xs else x :: insertBySeq e xs

/-- Sort rows by ascending seq, as `ListEvents` orders its result. -/
def sortBySeq : List EventRecord → List EventRecord
  | [] => []
  | x :: xs => insertBySeq x (sortBySeq xs)

/-- `ListEvents` (`store.go:180-209`): filter by run, by `seq >
afterSeq` when `afterSeq > 0`, order ascending by seq, apply the limit
when positive (0 = unbounded). -/
def ListEvents (s : StoreState) (runID : String) (afterSeq : Nat) (limit : Nat) :
    List EventRecord :=
  let rows := runRows s runID
  let rows := if 0 < afterSeq then rows.filter (fun e => afterSeq < e.seq) else rows
  let rows := sortBySeq rows
  if 0 < limit then rows.take limit else rows

/-- `LastSeq` (`store.go:212-224`): the largest seq for the run, 0 when
the run has no events. -/
def LastSeq (s : StoreState) (runID : String) : Nat :=
  match maxSeqRow (runRows s runID) with
  | none => 0
  | some last => last.seq

/-- `GetEventByID` (`store.go:227-250`): the event with the given
external id, or the `sql.ErrNoRows` signal, modelled as `none`. -/
def GetEventByID (s : StoreState) (eventID : String) : Option EventRecord :=
  s.events.find? (fun r => r.eventID == eventID)

/-- The snapshot-record input at the interface boundary: state is raw
JSON bytes. -/
structure SnapshotRecord' where
  snapshotID : String
  runID : String
  uptoSeq : Nat
  state : Bytes
deriving Repr

/-- `SaveSnapshot` (`store.go:253-284`): unmarshal the state bytes into
a map, insert; unique `snapshot_id` and unique `(run_id, upto_seq)`
violations surface as errors (ent constraint error). -/
def SaveSnapshot (s : StoreState) (sn : SnapshotRecord') :
    Except GoError (SnapshotRecord × StoreState) :=
  match unmarshalIntoMap sn.state with
  | .error m => .error (.plain ("invalid state json: " ++ m))
  | .ok state =>
    if sn.snapshotID = "" ∨ sn.runID = "" then
      .error (.plain "ent: validator failed")
    else if s.snapshots.any (fun r =>
        r.snapshotID == sn.snapshotID ∨
        (r.runID == sn.runID ∧ r.uptoSeq == sn.uptoSeq)) then
      .error (.plain "ent: constraint failed")
    else
      let row : SnapshotRecord :=
        { snapshotID := sn.snapshotID, runID := sn.runID
          uptoSeq := sn.uptoSeq, state := state }
      .ok (row, { s with snapshots := s.snapshots ++ [row] })

/-- `ORDER BY upto_seq DESC LIMIT 1` over snapshot rows. -/
def snapMaxRow (sns : List SnapshotRecord) : Option SnapshotRecord :=
  sns.foldl (fun acc e =>
    match acc with
    | none => some e
    | some a => if a.uptoSeq < e.uptoSeq then some e else acc) none

/-- `LoadLatestSnapshot` (`store.go:287-310`): the snapshot with the
largest `upto_seq` for the run, or not-found. -/
def LoadLatestSnapshot (s : StoreState) (runID : String) : Option SnapshotRecord :=
  snapMaxRow (s.snapshots.filter (fun r => r.runID == runID))

end entstore

/-! ## Agent contracts (`pkg/agent` interfaces) -/

/-- `agent.Event`: id, lowercase type tag and an `any`-typed payload
(`none` models a Go `nil` payload).  The wall-clock timestamp is
dropped. -/
structure AgentEvent where
  id : String
  type : String
  payload : Option JsonVal
deriving Repr

/-- `agent.Intent`: routing name, argument bag and optional idempotency
key (empty string = absent, as in Go). -/
structure Intent where
  name : String
  args : JsonObj
  idempotencyKey : String := ""
deriving Repr

/-- `agent.EffectHandler`: `CanHandle` and `Handle`.  `Handle` receives
the current state and returns follow-up events or an error. -/
structure EffectHandler (σ : Type) where
  canHandle : Intent → Bool
  handle : σ → Intent → Except GoError (List AgentEvent)

/-- `runtime.SnapshotCodec`: `Encode` produces the snapshot bytes,
`Decode` may fail or produce a `nil` state (`none`), both of which the
runner treats as a decode miss. -/
structure SnapshotCodec (σ : Type) where
  encode : σ → Except GoError Bytes
  decode : String → Bytes → Except GoError (Option σ)

/-- The `runtime.Runner` configuration: store-independent parameters of
`NewRunner` plus the `WithSnapshot` option (codec `none` or interval 0
disables snapshotting, as in `WithSnapshot`). -/
structure RunnerCfg (σ : Type) where
  reducer : σ → AgentEvent → Except GoError (σ × List Intent)
  handlers : List (EffectHandler σ)
  newState : String → σ
  snapshotCodec : Option (SnapshotCodec σ) := none
  snapshotInterval : Nat := 0

/-! ## Runner (`pkg/runtime/runner.go`) -/

namespace runtime

/-- `agentEventToRecord` (`runner.go:233-246`): a `nil` payload becomes
empty bytes, otherwise the payload is marshalled to JSON. -/
def agentEventToRecord (runID : String) (e : AgentEvent) : AppendInput :=
  { eventID := e.id, runID := runID, type := e.type
    payload := match e.payload with
      | none => .empty
      | some v => .json v }

/-- `recordToAgentEvent` (`runner.go:248-261`): a stored payload object
is unmarshalled back into an `any` value; an absent payload stays
`nil`. -/
def recordToAgentEvent (er : EventRecord) : AgentEvent :=
  { id := er.eventID, type := er.type
    payload := er.payload.map .obj }

/-- `intentMarkerEventID` (`runner.go:263-265`). -/
def intentMarkerEventID (runID key : String) : String :=
  "intent-" ++ runID ++ "-" ++ key

/-- `intentClaimEventID` (`runner.go:267-269`). -/
def intentClaimEventID (runID key : String) : String :=
  "intent-claim-" ++ runID ++ "-" ++ key

/-- `Runner.findHandler` (`runner.go:179-186`): the first handler whose
`CanHandle` accepts the intent. -/
def findHandler (cfg : RunnerCfg σ) (it : Intent) : Option (EffectHandler σ) :=
  cfg.handlers.find? (fun h => h.canHandle it)

/-- `Runner.replayState` (`runner.go:188-223`): start from
`newState(runID)`; when the latest snapshot exists with non-empty state
bytes, take `upto = snapshot.upto_seq` and, only when a codec is
configured and decodes to a non-nil state, replace the base state with
the decoded one; then fold the reducer over the events with
`seq > upto` in ascending order, keeping only the next state. -/
def replayBase (cfg : RunnerCfg σ) (s : StoreState) (runID : String) : σ × Nat :=
  let base₀ := cfg.newState runID
  match entstore.LoadLatestSnapshot s runID with
  | none => (base₀, 0)
  | some sn =>
    match sn.state with
    | none => (base₀, 0)
    | some fields =>
      match cfg.snapshotCodec with
      | none => (base₀, sn.uptoSeq)
      | some codec =>
        match codec.decode runID (.json (.obj fields)) with
        | .ok (some decoded) => (decoded, sn.uptoSeq)
        | _ => (base₀, sn.uptoSeq)

/-- One replay step: apply the reducer to a listed record, keep the
next state and the record's seq, discard the intents
(`runner.go:211-221`). -/
def replayStep (cfg : RunnerCfg σ) (p : σ × Nat) (er : EventRecord) :
    Except GoError (σ × Nat) := do
  let (next, _) ← cfg.reducer p.1 (recordToAgentEvent er)
  pure (next, er.seq)

def replayState (cfg : RunnerCfg σ) (s : StoreState) (runID : String) :
    Except GoError (σ × Nat) :=
  (entstore.ListEvents s runID (replayBase cfg s runID).2 0).foldlM
    (replayStep cfg) (replayBase cfg s runID)

/-- `Runner.saveSnapshot` (`runner.go:271-287`). -/
def saveSnapshot (cfg : RunnerCfg σ) (s : StoreState) (runID : String)
    (upto : Nat) (st : σ) : Except GoError StoreState :=
  match cfg.snapshotCodec with
  | none => .ok s
  | some codec => do
    let data ← codec.encode st
    let (_, s') ← entstore.SaveSnapshot s
      { snapshotID := "snap-" ++ runID ++ "-" ++ toString upto
        runID := runID, uptoSeq := upto, state := data }
    pure s'

/-- The outcome of one `HandleEvent` cycle: the returned
`(state, error)` pair, the store as left behind (mutations before an
abort persist, as in Go), and a ghost trace of the intents that were
actually passed to `EffectHandler.Handle` (instrumentation only; it
does not influence any behaviour). -/
structure CycleResult (σ : Type) where
  res : Except GoError σ
  store : StoreState
  calls : List Intent
  effectDup : Bool := false

/-- The inner loop of intent dispatch over the events one handler
returned (`runner.go:132-145`): append each effect event, then fold it
through the reducer.  The Bool reports (ghost) whether some append hit
an already-present event id — entstore then returns the existing row
with no error while the reducer still folds the fresh in-memory event,
so the log no longer mirrors the state. -/
def foldEffects (cfg : RunnerCfg σ) (runID : String) :
    List AgentEvent → σ → StoreState →
    Except (GoError × StoreState × Bool) (σ × StoreState × Bool)
  | [], current, s => .ok (current, s, false)
  | ev :: rest, current, s =>
    let dup := (entstore.GetEventByID s ev.id).isSome
    match entstore.AppendEvent s (agentEventToRecord runID ev) with
    | .error _ =>
      .error (errmodel.System "store_error" "failed to append effect event"
        [("event_type", ev.type)], s, dup)
    | .ok (_, s') =>
      match cfg.reducer current ev with
      | .error _ =>
        .error (errmodel.System "reducer_error" "failed to apply reducer"
          [("event_type", ev.type)], s', dup)
      | .ok (next, _) =>
        match foldEffects cfg runID rest next s' with
        | .error (e, s'', d) => .error (e, s'', dup || d)
        | .ok (cur'', s'', d) => .ok (cur'', s'', dup || d)

/-- The outcome of the claim attempt for one keyed intent. -/
inductive ClaimOutcome where
  | proceed (s' : StoreState)
  | skip
  | fail (e : GoError)

/-- The claim attempt (`runner.go:115-126`): for a keyed intent, append
the deterministic claim event; on an append *error*, skip when the
claim is already present, otherwise surface the raw error.  entstore's
idempotent append returns a duplicate claim as a non-error, so the
skip outcome is unreachable over entstore. -/
def claimStep (runID : String) (it : Intent) (s : StoreState) : ClaimOutcome :=
  if it.idempotencyKey = "" then .proceed s
  else
    let claimID := intentClaimEventID runID it.idempotencyKey
    match entstore.AppendEvent s
      { eventID := claimID, runID := runID
        type := "intent_claimed", payload := .empty } with
    | .ok (_, s') => .proceed s'
    | .error e =>
      match entstore.GetEventByID s claimID with
      | some _ => .skip
      | none => .fail e

/-- The completion-marker append (`runner.go:146-160`): for a keyed
intent, append the `intent_processed` marker carrying `{key, name}`;
an append error is wrapped as `system/store_error`. -/
def markerStep (runID : String) (it : Intent) (s : StoreState) :
    Except GoError StoreState :=
  if it.idempotencyKey = "" then .ok s
  else
    match entstore.AppendEvent s
      (agentEventToRecord runID
        { id := intentMarkerEventID runID it.idempotencyKey
          type := "intent_processed"
          payload := some (.obj
            [("key", .str it.idempotencyKey),
             ("name", .str it.name)]) }) with
    | .ok (_, s') => .ok s'
    | .error _ =>
      .error (errmodel.System "store_error"
        "failed to append idempotency marker" [("intent", it.name)])

/-- The intent-dispatch loop of `HandleEvent` (`runner.go:108-161`):
find the first capable handler (none → skip silently), attempt the
claim for keyed intents, call the handler, append and fold each
handler event, then append the completion marker.  The ghost `calls`
field records each `Handle` invocation. -/
def runIntents (cfg : RunnerCfg σ) (runID : String) :
    List Intent → σ → StoreState → CycleResult σ
  | [], current, s => { res := .ok current, store := s, calls := [] }
  | it :: rest, current, s =>
    match findHandler cfg it with
    | none => runIntents cfg runID rest current s
    | some handler =>
      match claimStep runID it s with
      | .skip => runIntents cfg runID rest current s
      | .fail e => { res := .error e, store := s, calls := [] }
      | .proceed s₁ =>
        match handler.handle current it with
        | .error _ =>
          { res := .error (errmodel.System "effect_error" "effect handler error"
              [("intent", it.name)])
            store := s₁, calls := [it] }
        | .ok evs =>
          match foldEffects cfg runID evs current s₁ with
          | .error (e, s₂, d) =>
            { res := .error e, store := s₂, calls := [it], effectDup := d }
          | .ok (current', s₂, d) =>
            match markerStep runID it s₂ with
            | .error e =>
              { res := .error e, store := s₂, calls := [it], effectDup := d }
            | .ok s₃ =>
              let out := runIntents cfg runID rest current' s₃
              { out with calls := it :: out.calls
                         effectDup := d || out.effectDup }

/-- `Runner.HandleEvent` (`runner.go:65-177`): validate the run id,
synthesize an id for an empty incoming id from the wall clock (passed
in as `nanos`), replay state, return early on a duplicate incoming id,
reduce the incoming event, append it, dispatch the intents, and
finally snapshot when enabled and `LastSeq` is a multiple of the
interval. -/
def handleEvent (cfg : RunnerCfg σ) (s : StoreState) (runID : String)
    (incoming : AgentEvent) (nanos : Nat) : CycleResult σ :=
  if runID = "" then
    { res := .error (errmodel.Validation "missing_run" "runID is empty" [])
      store := s, calls := [] }
  else
    let incoming :=
      if incoming.id = "" then
        { incoming with id := "e-" ++ runID ++ "-" ++ toString nanos }
      else incoming
    match replayState cfg s runID with
    | .error _ =>
      { res := .error (errmodel.System "store_error" "failed to replay state"
          [("phase", "replay")])
        store := s, calls := [] }
    | .ok (current, _) =>
      match entstore.GetEventByID s incoming.id with
      | some _ => { res := .ok current, store := s, calls := [] }
      | none =>
        match cfg.reducer current incoming with
        | .error e => { res := .error e, store := s, calls := [] }
        | .ok (next, intents) =>
          match entstore.AppendEvent s (agentEventToRecord runID incoming) with
          | .error _ =>
            { res := .error (errmodel.System "store_error"
                "failed to append incoming event"
                [("event_type", incoming.type)])
              store := s, calls := [] }
          | .ok (_, s₁) =>
            let out := runIntents cfg runID intents next s₁
            match out.res with
            | .error _ => out
            | .ok current' =>
              match cfg.snapshotCodec with
              | none => out
              | some _ =>
                if cfg.snapshotInterval = 0 then out
                else
                  let seq := entstore.LastSeq out.store runID
                  if 0 < seq ∧ seq % cfg.snapshotInterval = 0 then
                    match saveSnapshot cfg out.store runID seq current' with
                    | .error _ =>
                      { out with res := .error (errmodel.System "snapshot_error"
                          "failed to save snapshot"
                          [("run_id", runID), ("seq", toString seq)]) }
                    | .ok s₂ => { out with store := s₂ }
                  else out

end runtime

/-! ## Tool registry safe-invoke path (`pkg/agent/registry.go`) -/

namespace agent

/-- `agent.ToolPermission`. -/
structure ToolPermission where
  name : String
  description : String := ""
deriving Repr

/-- `agent.ToolDescriptor` (the fields `SafeInvoke` consults). -/
structure ToolDescriptor where
  name : String
  inputSchema : Bytes
  outputSchema : Bytes
  permissions : List ToolPermission

/-- `agent.Tool`: `Describe` and `Invoke`. -/
structure Tool where
  describe : ToolDescriptor
  invoke : JsonObj → Except GoError JsonObj

/-- `agent.ValidateFunc`: validates data against a JSON schema,
returning an error message on failure. -/
abbrev ValidateFunc := Bytes → JsonObj → Except String Unit

/-- `agent.SafeInvoke` (`registry.go:60-82`): nil-tool check, then the
declared permissions in order against the allowed set, then input
validation, then `Invoke`, then output validation — short-circuiting on
the first failure.  A tool error is returned unchanged
(`registry.go:74-77` is a bare `return nil, err`). -/
def SafeInvoke (t : Option Tool) (args : JsonObj) (allowed : String → Bool)
    (validate : ValidateFunc) : Except GoError JsonObj :=
  match t with
  | none => .error (errmodel.Validation "bad_tool" "tool is nil" [])
  | some t =>
    let d := t.describe
    match d.permissions.find? (fun p => !allowed p.name) with
    | some p =>
      .error (errmodel.Policy "forbidden" "permission denied for tool"
        [("permission", p.name), ("tool", d.name)])
    | none =>
      match validate d.inputSchema args with
      | .error msg =>
        .error (errmodel.Validation "invalid_input" "tool input validation failed"
          [("tool", d.name), ("error", msg)])
      | .ok _ =>
        match t.invoke args with
        | .error e => .error e
        | .ok out =>
          match validate d.outputSchema out with
          | .error msg =>
            .error (errmodel.Validation "invalid_output"
              "tool output validation failed"
              [("tool", d.name), ("error", msg)])
          | .ok _ => .ok out

end agent

/-! ## MCP bridge client (`pkg/mcpclient/mcp_client_sdk.go`, v0.4 SDK) -/

namespace mcpclient

/-- The far side's `tools/call` result: the `is_error` flag, the
structured content, and the diagnostic content blocks carrying the
remote error message. -/
structure CallToolResult where
  isError : Bool
  structuredContent : JsonVal
  content : List String
deriving Repr

/-- `sdkClient.CallTool` (`mcp_client_sdk.go:180-193`): no session is
an error; a transport error propagates; a result with `IsError` set
yields the plain error `tool returned error` (the remote message in
`content` is dropped); otherwise the structured content is returned
when it is a map, `nil` otherwise. -/
def CallTool (hasSession : Bool) (resp : Except GoError CallToolResult) :
    Except GoError (Option JsonObj) :=
  if hasSession = false then .error (.plain "no active session")
  else
    match resp with
    | .error e => .error e
    | .ok res =>
      if res.isError then .error (.plain "tool returned error")
      else .ok (match res.structuredContent with
        | .obj f => some f
        | _ => none)

end mcpclient

/-! ## Concrete fixtures

A counter state with the reducers and handler of the repository's own
runner tests (`pkg/runtime/runner_test.go`): `inc` adds `n` to the
count and emits one `emit_added` intent with `n = 2`; `added` adds `n`;
the handler for `emit_added` returns one `added` event.  The handler
derives its event id from the current count where the Go test uses the
wall clock (both yield fresh ids across cycles). -/

/-- The counter state of the runner tests. -/
structure CState where
  run : String
  count : Int
deriving Repr, DecidableEq

/-- Extract the integer field `n` from an event payload, 0 when absent
(the Go fixtures decode via marshal/unmarshal, defaulting to 0). -/
def payloadN (p : Option JsonVal) : Int :=
  match p with
  | some (.obj fields) =>
    match fields.lookup "n" with
    | some (.num n) => n
    | _ => 0
  | _ => 0

/-- Extract the integer `n` from intent args, 0 when absent. -/
def argsN (args : JsonObj) : Int :=
  match args.lookup "n" with
  | some (.num n) => n
  | _ => 0

/-- The test reducer, parameterized by the idempotency key it stamps on
the `emit_added` intent ("" for the plain variant, a fixed key for the
idempotent variant). -/
def counterReducer (key : String) (st : CState) (e : AgentEvent) :
    Except GoError (CState × List Intent) :=
  match e.type with
  | "inc" =>
    .ok ({ st with count := st.count + payloadN e.payload },
      [{ name := "emit_added", args := [("n", .num 2)], idempotencyKey := key }])
  | "added" =>
    .ok ({ st with count := st.count + payloadN e.payload }, [])
  | _ => .ok (st, [])

/-- The test handler: answers `emit_added` with one `added` event whose
id is derived from the state (fresh across cycles, as the Go test's
time-derived id is). -/
def counterHandler : EffectHandler CState :=
  { canHandle := fun it => it.name == "emit_added"
    handle := fun st it =>
      .ok [{ id := "e-added-" ++ st.run ++ "-" ++ toString st.count
             type := "added"
             payload := some (.obj [("n", .num (argsN it.args))]) }] }

/-- Runner configuration with the plain counter reducer. -/
def counterCfg : RunnerCfg CState :=
  { reducer := counterReducer ""
    handlers := [counterHandler]
    newState := fun runID => { run := runID, count := 0 } }

/-- Runner configuration with the idempotent-intent reducer
(key `add-two`, as in `TestRunner_IdempotentIntent_SQLite`). -/
def idemCfg : RunnerCfg CState :=
  { reducer := counterReducer "add-two"
    handlers := [counterHandler]
    newState := fun runID => { run := runID, count := 0 } }

/-- The `inc n=1` event with id `inc1`. -/
def incEvent (id : String) : AgentEvent :=
  { id := id, type := "inc", payload := some (.obj [("n", .num 1)]) }

/-- A tool whose `Invoke` fails with a plain (non-compact) error. -/
def boomTool : agent.Tool :=
  { describe := { name := "sum", inputSchema := .empty, outputSchema := .empty
                  permissions := [] }
    invoke := fun _ => .error (.plain "boom") }

/-- A runner configuration whose reducer always fails. -/
def failCfg : RunnerCfg CState :=
  { reducer := fun _ _ => .error (.plain "reducer boom")
    handlers := []
    newState := fun runID => { run := runID, count := 0 } }

/-! ## Helper lemmas on the store model -/

/-- The largest seq among rows, 0 for no rows (`LastSeq`'s value). -/
def maxSeqVal (evs : List EventRecord) : Nat :=
  match entstore.maxSeqRow evs with
  | none => 0
  | some e => e.seq

/-- The seq carried by an optional row, 0 for none. -/
def seqOfOpt (o : Option EventRecord) : Nat :=
  match o with
  | none => 0
  | some e => e.seq

/-- The fold step used by `maxSeqRow`. -/
def maxStep (acc : Option EventRecord) (e : EventRecord) : Option EventRecord :=
  match acc with
  | none => some e
  | some a => if a.seq < e.seq then some e else acc

theorem maxSeqRow_eq_foldl (evs : List EventRecord) :
    entstore.maxSeqRow evs = evs.foldl maxStep none := rfl

theorem seqOfOpt_foldl_ge (evs : List EventRecord) :
    ∀ acc, seqOfOpt acc ≤ seqOfOpt (evs.foldl maxStep acc) := by
  induction evs with
  | nil => intro acc; exact le_refl _
  | cons y ys ih =>
    intro acc
    refine le_trans ?_ (ih (maxStep acc y))
    cases acc with
    | none => simp [seqOfOpt]
    | some a =>
      by_cases h : a.seq < y.seq
      · simpa [maxStep, seqOfOpt, h] using le_of_lt h
      · simp [maxStep, seqOfOpt, h]

theorem mem_seq_le_foldl (evs : List EventRecord) :
    ∀ acc, ∀ x ∈ evs, x.seq ≤ seqOfOpt (evs.foldl maxStep acc) := by
  induction evs with
  | nil => intro acc x hx; cases hx
  | cons y ys ih =>
    intro acc x hx
    rcases List.mem_cons.mp hx with rfl | hmem
    · refine le_trans ?_ (seqOfOpt_foldl_ge ys (maxStep acc x))
      cases acc with
      | none => simp [maxStep, seqOfOpt]
      | some a =>
        by_cases h : a.seq < x.seq
        · simp [maxStep, seqOfOpt, h]
        · simpa [maxStep, seqOfOpt, h] using le_of_not_lt h
    · exact ih (maxStep acc y) x hmem

theorem maxSeqVal_eq (evs : List EventRecord) :
    maxSeqVal evs = seqOfOpt (entstore.maxSeqRow evs) := by
  unfold maxSeqVal seqOfOpt
  cases entstore.maxSeqRow evs <;> rfl

/-- Every row's seq is bounded by `maxSeqVal`. -/
theorem mem_seq_le_maxSeqVal {evs : List EventRecord} {x : EventRecord}
    (hx : x ∈ evs) : x.seq ≤ maxSeqVal evs := by
  rw [maxSeqVal_eq, maxSeqRow_eq_foldl]
  exact mem_seq_le_foldl evs none x hx

theorem foldl_maxStep_cases (evs : List EventRecord) :
    ∀ acc, evs.foldl maxStep acc = acc ∨ ∃ x ∈ evs, evs.foldl maxStep acc = some x := by
  induction evs with
  | nil => intro acc; exact Or.inl rfl
  | cons y ys ih =>
    intro acc
    rcases ih (maxStep acc y) with h | ⟨x, hx, h⟩
    · cases acc with
      | none => exact Or.inr ⟨y, List.mem_cons_self _ _, h⟩
      | some a =>
        by_cases hlt : a.seq < y.seq
        · refine Or.inr ⟨y, List.mem_cons_self _ _, ?_⟩
          simpa [maxStep, hlt] using h
        · refine Or.inl ?_
          simpa [maxStep, hlt] using h
    · exact Or.inr ⟨x, List.mem_cons_of_mem _ hx, h⟩

/-- `maxSeqRow` of a list with one strictly dominating appended row. -/
theorem maxSeqRow_append_dominant {evs : List EventRecord} {e : EventRecord}
    (h : ∀ x ∈ evs, x.seq < e.seq) :
    entstore.maxSeqRow (evs ++ [e]) = some e := by
  rw [maxSeqRow_eq_foldl, List.foldl_append]
  rcases foldl_maxStep_cases evs none with hc | ⟨x, hx, hc⟩
  · rw [hc]; rfl
  · rw [hc]
    simp [maxStep, h x hx]

/-- The engine-assigned next seq is `maxSeqVal + 1`. -/
theorem nextSeq_eq (evs : List EventRecord) :
    (match entstore.maxSeqRow evs with
      | none => 1
      | some last => last.seq + 1) = maxSeqVal evs + 1 := by
  unfold maxSeqVal
  cases entstore.maxSeqRow evs <;> rfl

/-- A successful `AppendEvent` whose event id is not yet present
inserts a fresh row at seq `maxSeqVal + 1` and touches nothing else. -/
theorem AppendEvent_fresh {s : StoreState} {e : AppendInput}
    {r : EventRecord} {s' : StoreState}
    (h : entstore.AppendEvent s e = .ok (r, s'))
    (hfresh : entstore.GetEventByID s e.eventID = none) :
    r = { eventID := e.eventID, runID := e.runID
          seq := maxSeqVal (entstore.runRows s e.runID) + 1
          type := e.type, payload := r.payload }
    ∧ entstore.unmarshalIntoMap e.payload = .ok r.payload
    ∧ s' = { s with events := s.events ++ [r] } := by
  unfold entstore.GetEventByID at hfresh
  rcases hm : entstore.unmarshalIntoMap e.payload with m | pl
  · simp only [entstore.AppendEvent, hm] at h
    cases h
  · simp only [entstore.AppendEvent, hm] at h
    by_cases hv : e.eventID = "" ∨ e.runID = "" ∨ e.type = ""
    · rw [if_pos hv] at h; cases h
    · rw [if_neg hv, hfresh, nextSeq_eq] at h
      cases h
      exact ⟨rfl, rfl, rfl⟩

/-- `AppendEvent` with an already-present event id returns the
pre-existing row and the unchanged store, provided the payload
unmarshals and the `NotEmpty` validators pass. -/
theorem AppendEvent_dup {s : StoreState} {e : AppendInput}
    {ex : EventRecord} {pl : Option JsonObj}
    (hm : entstore.unmarshalIntoMap e.payload = .ok pl)
    (hv : ¬(e.eventID = "" ∨ e.runID = "" ∨ e.type = ""))
    (hdup : entstore.GetEventByID s e.eventID = some ex) :
    entstore.AppendEvent s e = .ok (ex, s) := by
  unfold entstore.GetEventByID at hdup
  simp only [entstore.AppendEvent, hm]
  rw [if_neg hv, hdup]

/-! ### Insertion-sort lemmas for `ListEvents` ordering -/

theorem mem_insertBySeq {e x : EventRecord} :
    ∀ {l : List EventRecord}, x ∈ entstore.insertBySeq e l ↔ x = e ∨ x ∈ l := by
  intro l
  induction l with
  | nil => simp [entstore.insertBySeq]
  | cons y ys ih =>
    by_cases h : e.seq ≤ y.seq
    · simp [entstore.insertBySeq, h]
    · simp only [entstore.insertBySeq, if_neg h, List.mem_cons, ih]
      tauto

theorem pairwise_insertBySeq {e : EventRecord} {l : List EventRecord}
    (h : l.Pairwise (fun a b => a.seq ≤ b.seq)) :
    (entstore.insertBySeq e l).Pairwise (fun a b => a.seq ≤ b.seq) := by
  induction l with
  | nil => simp [entstore.insertBySeq]
  | cons y ys ih =>
    rcases List.pairwise_cons.mp h with ⟨hy, hys⟩
    by_cases hc : e.seq ≤ y.seq
    · rw [entstore.insertBySeq, if_pos hc]
      refine List.pairwise_cons.mpr ⟨?_, h⟩
      intro b hb
      rcases List.mem_cons.mp hb with rfl | hb
      · exact hc
      · exact le_trans hc (hy b hb)
    · rw [entstore.insertBySeq, if_neg hc]
      refine List.pairwise_cons.mpr ⟨?_, ih hys⟩
      intro b hb
      rcases mem_insertBySeq.mp hb with rfl | hb
      · exact le_of_not_le hc
      · exact hy b hb

theorem pairwise_sortBySeq (l : List EventRecord) :
    (entstore.sortBySeq l).Pairwise (fun a b => a.seq ≤ b.seq) := by
  induction l with
  | nil => simp [entstore.sortBySeq]
  | cons y ys ih => exact pairwise_insertBySeq ih

/-- Sorting a list already ascending by seq is the identity. -/
theorem sortBySeq_eq_self {l : List EventRecord}
    (h : l.Pairwise (fun a b => a.seq ≤ b.seq)) :
    entstore.sortBySeq l = l := by
  induction l with
  | nil => rfl
  | cons y ys ih =>
    rcases List.pairwise_cons.mp h with ⟨hy, hys⟩
    rw [entstore.sortBySeq, ih hys]
    cases ys with
    | nil => rfl
    | cons z zs =>
      rw [entstore.insertBySeq, if_pos (hy z (List.mem_cons_self _ _))]

/-! ## C3 — duplicate append -/

/-- **C3 counterexample.**  A record whose event id `a` already exists
but whose payload is a JSON array fails `AppendEvent` with the
`invalid payload json` error (the payload is unmarshalled before the
insert is attempted), instead of returning the pre-existing record
with no error. -/
theorem C3_counterexample :
    entstore.AppendEvent
      { events := [{ eventID := "a", runID := "r", seq := 1, type := "t"
                     payload := none }]
        snapshots := [] }
      { eventID := "a", runID := "r2", type := "u", payload := .json (.arr []) } =
      .error (.plain ("invalid payload json: " ++
        "json: cannot unmarshal value into Go value of type map[string]interface {}")) := rfl

/-- **C3 amended.**  For every record whose payload unmarshals (empty,
JSON object, or JSON null) and whose non-empty fields pass the
validators, if the event id already exists then `AppendEvent` returns
the pre-existing record (its seq, type and payload) with no error and
leaves the store — events and snapshots — unchanged, regardless of
which run the duplicate is submitted for. -/
theorem C3_amended_duplicate_is_noop
    (s : StoreState) (e : AppendInput) (ex : EventRecord) (pl : Option JsonObj)
    (hm : entstore.unmarshalIntoMap e.payload = .ok pl)
    (hid : e.eventID ≠ "") (hrun : e.runID ≠ "") (hty : e.type ≠ "")
    (hdup : entstore.GetEventByID s e.eventID = some ex) :
    entstore.AppendEvent s e = .ok (ex, s) :=
  AppendEvent_dup hm (by simp [hid, hrun, hty]) hdup

/-- Witness for the amended C3: re-appending event id `a` for a
different run returns the stored record at seq 1 and the unchanged
store. -/
theorem C3_amended_duplicate_is_noop_witness :
    entstore.AppendEvent
      { events := [{ eventID := "a", runID := "r", seq := 1, type := "t"
                     payload := none }]
        snapshots := [] }
      { eventID := "a", runID := "r2", type := "u", payload := .empty } =
      .ok ({ eventID := "a", runID := "r", seq := 1, type := "t"
             payload := none },
           { events := [{ eventID := "a", runID := "r", seq := 1, type := "t"
                          payload := none }]
             snapshots := [] }) :=
  C3_amended_duplicate_is_noop _
    { eventID := "a", runID := "r2", type := "u", payload := .empty }
    _ none rfl (by decide) (by decide) (by decide) rfl

/-! ## C4 — per-run seq assignment -/

/-- **C4 counterexample.**  Two consecutive *successful* `AppendEvent`
calls for the same run need not return consecutive seqs: appending the
same record twice succeeds both times (the duplicate is a no-op)
returning seq 1 twice, so the second successful return is not the
first seq plus 1. -/
theorem C4_counterexample :
    entstore.AppendEvent StoreState.empty
      { eventID := "a", runID := "r", type := "t", payload := .empty } =
      .ok ({ eventID := "a", runID := "r", seq := 1, type := "t", payload := none },
           { events := [{ eventID := "a", runID := "r", seq := 1, type := "t"
                          payload := none }]
             snapshots := [] })
    ∧ entstore.AppendEvent
        { events := [{ eventID := "a", runID := "r", seq := 1, type := "t"
                       payload := none }]
          snapshots := [] }
        { eventID := "a", runID := "r", type := "t", payload := .empty } =
        .ok ({ eventID := "a", runID := "r", seq := 1, type := "t", payload := none },
             { events := [{ eventID := "a", runID := "r", seq := 1, type := "t"
                            payload := none }]
               snapshots := [] })
    ∧ (1 : Nat) ≠ 1 + 1 :=
  ⟨rfl, rfl, by decide⟩

/-- **C4 amended.**  Seqs are assigned at append time for appends that
insert a new record (event id not yet present): the first such append
for a run returns seq 1; a fresh append immediately following a fresh
append for the same run returns the previous seq plus 1 (no gaps, no
duplicates under per-run serialization); and `ListEvents` always
returns its rows ordered by ascending seq. -/
theorem C4_amended_seq_assignment
    (s : StoreState) (e₁ e₂ : AppendInput) (r₁ r₂ : EventRecord)
    (s₁ s₂ : StoreState) (runID : String) (afterSeq limit : Nat) :
    ((entstore.runRows s e₁.runID = [] →
       entstore.GetEventByID s e₁.eventID = none →
       entstore.AppendEvent s e₁ = .ok (r₁, s₁) → r₁.seq = 1)
    ∧ (entstore.GetEventByID s e₁.eventID = none →
       entstore.AppendEvent s e₁ = .ok (r₁, s₁) →
       entstore.GetEventByID s₁ e₂.eventID = none →
       entstore.AppendEvent s₁ e₂ = .ok (r₂, s₂) →
       e₂.runID = e₁.runID →
       r₂.seq = r₁.seq + 1)
    ∧ (entstore.ListEvents s runID afterSeq limit).Pairwise
        (fun a b => a.seq ≤ b.seq)) := by
  refine ⟨?_, ?_, ?_⟩
  · intro hrows hfresh happ
    rcases AppendEvent_fresh happ hfresh with ⟨hr, -, -⟩
    rw [hr]
    simp [maxSeqVal, entstore.maxSeqRow, hrows]
  · intro hfresh₁ happ₁ hfresh₂ happ₂ hrun
    rcases AppendEvent_fresh happ₁ hfresh₁ with ⟨hr₁, -, hs₁⟩
    rcases AppendEvent_fresh happ₂ hfresh₂ with ⟨hr₂, -, -⟩
    have hrows : entstore.runRows s₁ e₂.runID =
        entstore.runRows s e₁.runID ++ [r₁] := by
      rw [hs₁, hrun]
      unfold entstore.runRows
      rw [List.filter_append]
      have : r₁.runID == e₁.runID := by rw [hr₁]; simp
      simp [this]
    have hmax : entstore.maxSeqRow (entstore.runRows s₁ e₂.runID) = some r₁ := by
      rw [hrows]
      refine maxSeqRow_append_dominant ?_
      intro x hx
      have hle := mem_seq_le_maxSeqVal hx
      have : r₁.seq = maxSeqVal (entstore.runRows s e₁.runID) + 1 := by
        rw [hr₁]
      omega
    rw [hr₂]
    simp only [maxSeqVal, hmax]
  · unfold entstore.ListEvents
    have hs := pairwise_sortBySeq
      (if 0 < afterSeq then
        (entstore.runRows s runID).filter (fun e => afterSeq < e.seq)
      else entstore.runRows s runID)
    by_cases hl : 0 < limit
    · rw [if_pos hl]
      exact hs.sublist (List.take_sublist _ _)
    · rw [if_neg hl]
      exact hs

/-- Witness for the amended C4: two fresh appends to an empty store
return seqs 1 and 2, and `ListEvents` lists them ascending. -/
theorem C4_amended_seq_assignment_witness :
    (1 : Nat) = 1 ∧ (2 : Nat) = 1 + 1 := by
  have h := C4_amended_seq_assignment StoreState.empty
    { eventID := "a", runID := "r", type := "t", payload := .empty }
    { eventID := "b", runID := "r", type := "t", payload := .empty }
    { eventID := "a", runID := "r", seq := 1, type := "t", payload := none }
    { eventID := "b", runID := "r", seq := 2, type := "t", payload := none }
    { events := [{ eventID := "a", runID := "r", seq := 1, type := "t"
                   payload := none }]
      snapshots := [] }
    { events := [{ eventID := "a", runID := "r", seq := 1, type := "t"
                   payload := none },
                 { eventID := "b", runID := "r", seq := 2, type := "t"
                   payload := none }]
      snapshots := [] }
    "r" 0 0
  exact ⟨h.1 rfl rfl rfl, h.2.1 rfl rfl rfl rfl rfl⟩

/-! ## C6 — SafeInvoke pipeline -/

/-- **C6.**  `SafeInvoke` performs the ordered sequence nil-tool check,
permission check, input validation, invocation, output validation,
short-circuiting on the first failure: a nil tool yields
`validation/bad_tool`; the first declared permission outside the
allowed set yields `policy/forbidden` naming that permission, and the
result does not depend on the tool's `Invoke` (it is never called);
failing input validation yields `validation/invalid_input`
independently of `Invoke`; failing output validation yields
`validation/invalid_output` instead of the raw output. -/
theorem C6_safe_invoke_pipeline
    (d : agent.ToolDescriptor) (inv inv' : JsonObj → Except GoError JsonObj)
    (args : JsonObj) (allowed : String → Bool) (validate : agent.ValidateFunc) :
    (agent.SafeInvoke none args allowed validate =
        .error (errmodel.Validation "bad_tool" "tool is nil" []))
    ∧ (∀ p, d.permissions.find? (fun q => !allowed q.name) = some p →
        agent.SafeInvoke (some ⟨d, inv⟩) args allowed validate =
          .error (errmodel.Policy "forbidden" "permission denied for tool"
            [("permission", p.name), ("tool", d.name)])
        ∧ agent.SafeInvoke (some ⟨d, inv⟩) args allowed validate =
            agent.SafeInvoke (some ⟨d, inv'⟩) args allowed validate)
    ∧ (∀ msg, d.permissions.find? (fun q => !allowed q.name) = none →
        validate d.inputSchema args = .error msg →
        agent.SafeInvoke (some ⟨d, inv⟩) args allowed validate =
          .error (errmodel.Validation "invalid_input" "tool input validation failed"
            [("tool", d.name), ("error", msg)])
        ∧ agent.SafeInvoke (some ⟨d, inv⟩) args allowed validate =
            agent.SafeInvoke (some ⟨d, inv'⟩) args allowed validate)
    ∧ (∀ out msg, d.permissions.find? (fun q => !allowed q.name) = none →
        validate d.inputSchema args = .ok () →
        inv args = .ok out →
        validate d.outputSchema out = .error msg →
        agent.SafeInvoke (some ⟨d, inv⟩) args allowed validate =
          .error (errmodel.Validation "invalid_output"
            "tool output validation failed"
            [("tool", d.name), ("error", msg)])) := by
  refine ⟨rfl, ?_, ?_, ?_⟩
  · intro p hp
    constructor <;> simp [agent.SafeInvoke, hp]
  · intro msg hp hv
    constructor <;> simp [agent.SafeInvoke, hp, hv]
  · intro out msg hp hv hi ho
    simp [agent.SafeInvoke, hp, hv, hi, ho]

/-- Witness for C6: the `sum` tool requiring permission `cpu` invoked
with an empty allow-set is refused with `policy/forbidden` naming
`cpu` (spec scenario 5). -/
theorem C6_safe_invoke_pipeline_witness :
    agent.SafeInvoke
      (some ⟨{ name := "sum", inputSchema := .empty, outputSchema := .empty
               permissions := [⟨"cpu", ""⟩] }, fun _ => .ok []⟩)
      [] (fun _ => false) (fun _ _ => .ok ()) =
      .error (errmodel.Policy "forbidden" "permission denied for tool"
        [("permission", "cpu"), ("tool", "sum")]) :=
  ((C6_safe_invoke_pipeline
      { name := "sum", inputSchema := .empty, outputSchema := .empty
        permissions := [⟨"cpu", ""⟩] }
      (fun _ => .ok []) (fun _ => .ok []) [] (fun _ => false)
      (fun _ _ => .ok ())).2.1 ⟨"cpu", ""⟩ rfl).1

/-! ## C7 — reducer error aborts the cycle with no store mutation -/

/-- **C7.**  When the cycle reaches the reduce-incoming step (valid run
id, successful replay, non-duplicate incoming id) and the reducer
fails, `HandleEvent` surfaces that very error, leaves the store
untouched, and dispatches no intent. -/
theorem C7_reducer_error_aborts {σ : Type}
    (cfg : RunnerCfg σ) (s : StoreState) (runID : String)
    (e : AgentEvent) (nanos : Nat) (current : σ) (last : Nat) (err : GoError)
    (hrun : runID ≠ "") (hid : e.id ≠ "")
    (hreplay : runtime.replayState cfg s runID = .ok (current, last))
    (hdup : entstore.GetEventByID s e.id = none)
    (herr : cfg.reducer current e = .error err) :
    runtime.handleEvent cfg s runID e nanos =
      { res := .error err, store := s, calls := [] } := by
  simp [runtime.handleEvent, hrun, hid, hreplay, hdup, herr]

/-- Witness for C7: a reducer that always fails aborts the cycle on an
empty store with its own error and no persisted event. -/
theorem C7_reducer_error_aborts_witness :
    runtime.handleEvent failCfg StoreState.empty "r" (incEvent "e0") 0 =
      { res := .error (.plain "reducer boom"), store := StoreState.empty
        calls := [] } :=
  C7_reducer_error_aborts failCfg StoreState.empty "r" (incEvent "e0") 0
    { run := "r", count := 0 } 0 (.plain "reducer boom")
    (by decide) (by decide) rfl rfl rfl

/-! ## C8 — SafeInvoke does not wrap tool errors -/

/-- **C8 counterexample.**  A tool whose `Invoke` fails with the plain
error `boom` surfaces exactly that plain error from `SafeInvoke`; its
compact form is `system/internal` with empty context — not a compact
error of category `tool`, and the tool's name appears nowhere. -/
theorem C8_counterexample :
    agent.SafeInvoke (some boomTool) [] (fun _ => true) (fun _ _ => .ok ()) =
      .error (.plain "boom")
    ∧ errmodel.From (.plain "boom") =
        .compact "system" "internal" "boom" [] :=
  ⟨rfl, rfl⟩

/-- **C8 amended.**  `SafeInvoke` propagates a failing tool's error to
the caller unchanged (no wrapping into category `tool`, no tool name
attached): with permissions and input validation passing, a tool error
`e` is returned as `e`. -/
theorem C8_amended_tool_error_passthrough
    (t : agent.Tool) (args : JsonObj) (allowed : String → Bool)
    (validate : agent.ValidateFunc) (e : GoError)
    (hperm : t.describe.permissions.find? (fun q => !allowed q.name) = none)
    (hin : validate t.describe.inputSchema args = .ok ())
    (herr : t.invoke args = .error e) :
    agent.SafeInvoke (some t) args allowed validate = .error e := by
  simp [agent.SafeInvoke, hperm, hin, herr]

/-- Witness for the amended C8: `boomTool`'s plain `boom` error passes
through unchanged. -/
theorem C8_amended_tool_error_passthrough_witness :
    agent.SafeInvoke (some boomTool) [] (fun _ => true) (fun _ _ => .ok ()) =
      .error (.plain "boom") :=
  C8_amended_tool_error_passthrough boomTool [] (fun _ => true)
    (fun _ _ => .ok ()) (.plain "boom") rfl rfl rfl

/-! ## C9 — bridge client drops the remote error details -/

/-- **C9 counterexample.**  A `tools/call` result with `is_error=true`
carrying the remote message `remote boom` makes `CallTool` return the
plain error `tool returned error`: converted to compact form it is
`system/internal` with empty context — not category `tool`, not code
`remote_error`, and the remote message is nowhere. -/
theorem C9_counterexample :
    mcpclient.CallTool true
      (.ok { isError := true, structuredContent := .null
             content := ["remote boom"] }) =
      .error (.plain "tool returned error")
    ∧ errmodel.From (.plain "tool returned error") =
        .compact "system" "internal" "tool returned error" [] :=
  ⟨rfl, rfl⟩

/-- **C9 amended.**  For every far-side result with `is_error=true`,
`CallTool` returns the fixed plain error `tool returned error`: the
remote message is discarded and no compact `tool/remote_error` is
built. -/
theorem C9_amended_is_error_plain (sc : JsonVal) (content : List String) :
    mcpclient.CallTool true
      (.ok { isError := true, structuredContent := sc, content := content }) =
      .error (.plain "tool returned error") := rfl

/-! ## C10 — JSON null payloads are accepted -/

/-- **C10 counterexample.**  A non-empty payload holding the valid
non-object JSON document `null` is *accepted* by `AppendEvent` (Go's
`json.Unmarshal` treats `null` as a no-op on the map): the event is
persisted with no payload, contradicting the claim that every
non-empty valid-JSON non-object payload fails. -/
theorem C10_counterexample :
    entstore.AppendEvent StoreState.empty
      { eventID := "a", runID := "r", type := "t", payload := .json .null } =
      .ok ({ eventID := "a", runID := "r", seq := 1, type := "t"
             payload := none },
           { events := [{ eventID := "a", runID := "r", seq := 1, type := "t"
                          payload := none }]
             snapshots := [] }) := rfl

/-- **C10 amended.**  A non-empty payload that is valid JSON but
neither an object nor `null` (array, string, number, boolean) makes
`AppendEvent` fail with the `invalid payload json` error and persist
nothing; `null` is treated like an absent payload, so only
object-shaped or absent payloads are ever stored. -/
theorem C10_amended_nonobject_payload_rejected
    (s : StoreState) (e : AppendInput) (v : JsonVal)
    (hp : e.payload = .json v)
    (hobj : ∀ f, v ≠ .obj f) (hnull : v ≠ .null) :
    entstore.AppendEvent s e =
      .error (.plain ("invalid payload json: " ++
        "json: cannot unmarshal value into Go value of type map[string]interface {}")) := by
  cases v with
  | obj f => exact absurd rfl (hobj f)
  | null => exact absurd rfl hnull
  | _ => simp [entstore.AppendEvent, entstore.unmarshalIntoMap, hp]

/-- Witness for the amended C10: an array payload is rejected. -/
theorem C10_amended_nonobject_payload_rejected_witness :
    entstore.AppendEvent StoreState.empty
      { eventID := "a", runID := "r", type := "t"
        payload := .json (.arr []) } =
      .error (.plain ("invalid payload json: " ++
        "json: cannot unmarshal value into Go value of type map[string]interface {}")) :=
  C10_amended_nonobject_payload_rejected StoreState.empty
    { eventID := "a", runID := "r", type := "t", payload := .json (.arr []) }
    (.arr []) rfl (fun _ h => nomatch h) (fun h => nomatch h)

/-! ## C5 — replay vs. fold-from-empty -/

/-- Modelled from the spec: "Replay from a snapshot plus subsequent
events equals replay from empty plus all events" — the right-hand
side: fold the reducer over *all* events of the run in ascending-seq
order starting from the `StateFactory` state, keeping only states. -/
def specReplayFromEmpty (cfg : RunnerCfg σ) (s : StoreState) (runID : String) :
    Except GoError σ :=
  (entstore.ListEvents s runID 0 0).foldlM
    (fun st er => (cfg.reducer st (runtime.recordToAgentEvent er)).map Prod.fst)
    (cfg.newState runID)

/-- Folding `replayStep` and projecting the state equals folding the
state-only reducer. -/
theorem foldlM_replayStep_fst (cfg : RunnerCfg σ) (l : List EventRecord) :
    ∀ (b : σ) (u : Nat),
      (l.foldlM (runtime.replayStep cfg) (b, u)).map Prod.fst =
      l.foldlM
        (fun st er => (cfg.reducer st (runtime.recordToAgentEvent er)).map Prod.fst)
        b := by
  induction l with
  | nil => intro b u; rfl
  | cons x xs ih =>
    intro b u
    rw [List.foldlM_cons, List.foldlM_cons]
    cases hr : cfg.reducer b (runtime.recordToAgentEvent x) with
    | error e =>
      have h1 : runtime.replayStep cfg (b, u) x = .error e := by
        simp [runtime.replayStep, hr]
      rw [h1]
      rfl
    | ok p =>
      have h1 : runtime.replayStep cfg (b, u) x = .ok (p.1, x.seq) := by
        simp [runtime.replayStep, hr]
      rw [h1]
      exact ih p.1 x.seq

/-- No snapshot can influence replay: either none exists for the run,
or the latest one carries an empty state body (in which case
`replayState` ignores it entirely, `runner.go:196-203`). -/
def NoEffectiveSnapshot (s : StoreState) (runID : String) : Prop :=
  ∀ sn, entstore.LoadLatestSnapshot s runID = some sn → sn.state = none

theorem replayBase_of_noSnapshot {cfg : RunnerCfg σ} {s : StoreState}
    {runID : String} (h : NoEffectiveSnapshot s runID) :
    runtime.replayBase cfg s runID = (cfg.newState runID, 0) := by
  unfold runtime.replayBase
  cases hsn : entstore.LoadLatestSnapshot s runID with
  | none => rfl
  | some sn =>
    simp [h sn hsn]

/-- **C5 counterexample.**  With no `SnapshotCodec` configured and a
latest snapshot with a non-empty state body, `replayState` sets
`upto = snapshot.upto_seq` but keeps the empty factory state, skipping
every event at or below `upto`: with one `inc n=1` event at seq 1 and a
snapshot at `upto_seq = 1`, replay yields count 0 while folding all
events from empty yields count 1. -/
theorem C5_counterexample :
    runtime.replayState counterCfg
      { events := [{ eventID := "e1", runID := "r", seq := 1, type := "inc"
                     payload := some [("n", .num 1)] }]
        snapshots := [{ snapshotID := "snap-r-1", runID := "r", uptoSeq := 1
                        state := some [("count", .num 5)] }] } "r" =
      .ok ({ run := "r", count := 0 }, 1)
    ∧ specReplayFromEmpty counterCfg
        { events := [{ eventID := "e1", runID := "r", seq := 1, type := "inc"
                       payload := some [("n", .num 1)] }]
          snapshots := [{ snapshotID := "snap-r-1", runID := "r", uptoSeq := 1
                          state := some [("count", .num 5)] }] } "r" =
        .ok { run := "r", count := 1 }
    ∧ ({ run := "r", count := 0 } : CState) ≠ { run := "r", count := 1 } :=
  ⟨rfl, rfl, by decide⟩

/-- **C5 amended.**  When no snapshot influences replay (none exists,
or the latest has an empty state body), `replayState` computes exactly
the fold of all the run's events from the `StateFactory` state, in any
codec configuration; consequently two engines over two stores holding
the same ordered event sequence for the run compute the same state.
(When a snapshot with a non-empty body exists, replay matches the full
fold only if a codec is configured and decodes that snapshot to the
state the skipped prefix folds to — dropped from the claim, which
asserted the equality even with no codec or a failing decode.) -/
theorem C5_amended_replay_equals_fold {σ : Type}
    (cfg : RunnerCfg σ) (s s' : StoreState) (runID : String)
    (h : NoEffectiveSnapshot s runID) (h' : NoEffectiveSnapshot s' runID) :
    ((runtime.replayState cfg s runID).map Prod.fst =
        specReplayFromEmpty cfg s runID
    ∧ (entstore.ListEvents s runID 0 0 = entstore.ListEvents s' runID 0 0 →
        (runtime.replayState cfg s runID).map Prod.fst =
        (runtime.replayState cfg s' runID).map Prod.fst)) := by
  have key : ∀ (t : StoreState), NoEffectiveSnapshot t runID →
      (runtime.replayState cfg t runID).map Prod.fst =
        specReplayFromEmpty cfg t runID := by
    intro t ht
    unfold runtime.replayState specReplayFromEmpty
    rw [replayBase_of_noSnapshot ht]
    exact foldlM_replayStep_fst cfg _ _ _
  refine ⟨key s h, fun hl => ?_⟩
  rw [key s h, key s' h']
  unfold specReplayFromEmpty
  rw [hl]

/-- Witness for the amended C5: a store with one `inc` event and no
snapshot replays to exactly the fold-from-empty state (count 1). -/
theorem C5_amended_replay_equals_fold_witness :
    (runtime.replayState counterCfg
      { events := [{ eventID := "e1", runID := "r", seq := 1, type := "inc"
                     payload := some [("n", .num 1)] }]
        snapshots := [] } "r").map Prod.fst =
      specReplayFromEmpty counterCfg
        { events := [{ eventID := "e1", runID := "r", seq := 1, type := "inc"
                       payload := some [("n", .num 1)] }]
          snapshots := [] } "r" :=
  (C5_amended_replay_equals_fold counterCfg
    { events := [{ eventID := "e1", runID := "r", seq := 1, type := "inc"
                   payload := some [("n", .num 1)] }]
      snapshots := [] }
    StoreState.empty "r" (fun _ h => nomatch h) (fun _ h => nomatch h)).1

/-! ## C2 infrastructure — store well-formedness and replay stability -/

/-- An agent event whose payload survives the marshal/store/unmarshal
round trip exactly: absent, or a JSON object.  (A payload of JSON
`null` is stored as absent and would come back changed; any other
non-object payload cannot be appended at all.) -/
def payloadNormal (e : AgentEvent) : Prop :=
  e.payload = none ∨ ∃ f, e.payload = some (.obj f)

/-- The replay-fidelity contract of the spec for engine-internal event
types: the reducer treats the claim and completion-marker events as
no-ops (state unchanged, no intents). -/
def MarkerNoop (cfg : RunnerCfg σ) : Prop :=
  ∀ (st : σ) (e : AgentEvent),
    e.type = "intent_claimed" ∨ e.type = "intent_processed" →
    cfg.reducer st e = .ok (st, [])

/-- Every event any configured handler returns has a round-trip-exact
payload. -/
def HandlersNormal (cfg : RunnerCfg σ) : Prop :=
  ∀ h ∈ cfg.handlers, ∀ (st : σ) (it : Intent) (evs : List AgentEvent),
    h.handle st it = .ok evs → ∀ ev ∈ evs, payloadNormal ev

/-- Rows strictly ascending by seq. -/
def SeqSorted (l : List EventRecord) : Prop :=
  l.Pairwise (fun a b => a.seq < b.seq)

/-- Store well-formedness, maintained by the engine: per-run rows are
strictly ascending by seq in insertion order, and every snapshot's
`upto_seq` is within the run's log. -/
structure StoreWF (s : StoreState) : Prop where
  sorted : ∀ runID, SeqSorted (entstore.runRows s runID)
  snapBound : ∀ sn ∈ s.snapshots, sn.uptoSeq ≤ entstore.LastSeq s sn.runID

theorem StoreWF.empty : StoreWF StoreState.empty :=
  ⟨fun _ => List.Pairwise.nil, fun _ h => nomatch h⟩

theorem LastSeq_eq (s : StoreState) (runID : String) :
    entstore.LastSeq s runID = maxSeqVal (entstore.runRows s runID) := by
  unfold entstore.LastSeq maxSeqVal
  cases entstore.maxSeqRow (entstore.runRows s runID) <;> rfl

theorem intentClaimEventID_ne_empty (runID key : String) :
    runtime.intentClaimEventID runID key ≠ "" := by
  intro h
  have hl := congrArg String.length h
  unfold runtime.intentClaimEventID at hl
  rw [String.length_append, String.length_append, String.length_append] at hl
  have h13 : ("intent-claim-" : String).length = 13 := rfl
  have h1 : ("-" : String).length = 1 := rfl
  have h0 : ("" : String).length = 0 := rfl
  omega

theorem intentMarkerEventID_ne_empty (runID key : String) :
    runtime.intentMarkerEventID runID key ≠ "" := by
  intro h
  have hl := congrArg String.length h
  unfold runtime.intentMarkerEventID at hl
  rw [String.length_append, String.length_append, String.length_append] at hl
  have h7 : ("intent-" : String).length = 7 := rfl
  have h1 : ("-" : String).length = 1 := rfl
  have h0 : ("" : String).length = 0 := rfl
  omega

theorem getEventByID_extend {s₁ s₂ : StoreState} {id : String} {x : EventRecord}
    (hpre : s₁.events <+: s₂.events)
    (h : entstore.GetEventByID s₁ id = some x) :
    entstore.GetEventByID s₂ id = some x := by
  obtain ⟨t, ht⟩ := hpre
  unfold entstore.GetEventByID at *
  rw [← ht, List.find?_append, h]
  rfl

theorem getEventByID_append_new {s : StoreState} {r : EventRecord} {id : String}
    (hnone : entstore.GetEventByID s id = none) (hr : r.eventID = id) :
    entstore.GetEventByID { s with events := s.events ++ [r] } id = some r := by
  unfold entstore.GetEventByID at *
  rw [List.find?_append, hnone]
  simp [List.find?, hr]

/-- The fold step used by `snapMaxRow`. -/
def snapStep (acc : Option SnapshotRecord) (e : SnapshotRecord) :
    Option SnapshotRecord :=
  match acc with
  | none => some e
  | some a => if a.uptoSeq < e.uptoSeq then some e else acc

theorem snapMaxRow_eq_foldl (sns : List SnapshotRecord) :
    entstore.snapMaxRow sns = sns.foldl snapStep none := rfl

theorem foldl_snapStep_cases (sns : List SnapshotRecord) :
    ∀ acc, sns.foldl snapStep acc = acc ∨ ∃ x ∈ sns, sns.foldl snapStep acc = some x := by
  induction sns with
  | nil => intro acc; exact Or.inl rfl
  | cons y ys ih =>
    intro acc
    rcases ih (snapStep acc y) with h | ⟨x, hx, h⟩
    · cases acc with
      | none => exact Or.inr ⟨y, List.mem_cons_self _ _, h⟩
      | some a =>
        by_cases hlt : a.uptoSeq < y.uptoSeq
        · refine Or.inr ⟨y, List.mem_cons_self _ _, ?_⟩
          simpa [snapStep, hlt] using h
        · refine Or.inl ?_
          simpa [snapStep, hlt] using h
    · exact Or.inr ⟨x, List.mem_cons_of_mem _ hx, h⟩

theorem loadLatest_mem {s : StoreState} {runID : String} {sn : SnapshotRecord}
    (h : entstore.LoadLatestSnapshot s runID = some sn) :
    sn ∈ s.snapshots ∧ sn.runID = runID := by
  unfold entstore.LoadLatestSnapshot at h
  rw [snapMaxRow_eq_foldl] at h
  rcases foldl_snapStep_cases (s.snapshots.filter (fun r => r.runID == runID)) none
    with hc | ⟨x, hx, hc⟩
  · rw [hc] at h; cases h
  · rw [hc] at h
    cases h
    refine ⟨List.mem_of_mem_filter hx, ?_⟩
    have := List.of_mem_filter hx
    simpa using this

/-- The replay starting point never exceeds the run's last seq. -/
theorem replayBase_le_lastSeq {σ : Type} (cfg : RunnerCfg σ) (runID : String)
    {s : StoreState} (hwf : StoreWF s) :
    (runtime.replayBase cfg s runID).2 ≤ entstore.LastSeq s runID := by
  unfold runtime.replayBase
  cases hsn : entstore.LoadLatestSnapshot s runID with
  | none => simp
  | some sn =>
    rcases loadLatest_mem hsn with ⟨hmem, hrid⟩
    have hb := hwf.snapBound sn hmem
    rw [hrid] at hb
    cases hst : sn.state with
    | none => simp [hst]
    | some fields =>
      simp only [hst]
      cases hc : cfg.snapshotCodec with
      | none => exact hb
      | some codec =>
        simp only [hc]
        cases hd : codec.decode runID (.json (.obj fields)) with
        | error e => exact hb
        | ok o =>
          cases o with
          | none => exact hb
          | some dec => exact hb

/-- Constructive fresh-append: with a parsing payload, passing
validators and a fresh event id, `AppendEvent` inserts at
`maxSeqVal + 1`. -/
theorem AppendEvent_fresh_ok {s : StoreState} {e : AppendInput} {pl : Option JsonObj}
    (hm : entstore.unmarshalIntoMap e.payload = .ok pl)
    (hv : ¬(e.eventID = "" ∨ e.runID = "" ∨ e.type = ""))
    (hfresh : entstore.GetEventByID s e.eventID = none) :
    entstore.AppendEvent s e =
      .ok ({ eventID := e.eventID, runID := e.runID
             seq := maxSeqVal (entstore.runRows s e.runID) + 1
             type := e.type, payload := pl },
           { s with events := s.events ++
               [{ eventID := e.eventID, runID := e.runID
                  seq := maxSeqVal (entstore.runRows s e.runID) + 1
                  type := e.type, payload := pl }] }) := by
  unfold entstore.GetEventByID at hfresh
  simp only [entstore.AppendEvent, hm]
  rw [if_neg hv, hfresh, nextSeq_eq]

/-- A stored row rebuilt from a round-trip-exact agent event
unmarshals back to that very event. -/
theorem roundtrip_normal {ev : AgentEvent} (hn : payloadNormal ev)
    (runID : String) (n : Nat) {pl : Option JsonObj}
    (hm : entstore.unmarshalIntoMap
      (runtime.agentEventToRecord runID ev).payload = .ok pl) :
    runtime.recordToAgentEvent
      { eventID := ev.id, runID := runID, seq := n, type := ev.type
        payload := pl } = ev := by
  obtain ⟨id, ty, pay⟩ := ev
  rcases hn with hp | ⟨f, hp⟩ <;> simp only at hp <;> subst hp <;>
    simp only [runtime.agentEventToRecord, entstore.unmarshalIntoMap] at hm <;>
    cases hm <;> rfl

end Orch

namespace Orch

/-! ## C2 infrastructure — log-extension lemmas -/

theorem runRows_append (s : StoreState) (r : EventRecord) (runID : String) :
    entstore.runRows { s with events := s.events ++ [r] } runID =
      entstore.runRows s runID ++ (if r.runID == runID then [r] else []) := by
  unfold entstore.runRows
  rw [List.filter_append, List.filter_singleton]
  cases hb : r.runID == runID <;> simp [hb]

theorem runRows_append_self {s : StoreState} {r : EventRecord} {runID : String}
    (h : r.runID = runID) :
    entstore.runRows { s with events := s.events ++ [r] } runID =
      entstore.runRows s runID ++ [r] := by
  rw [runRows_append]
  simp [h]

theorem runRows_append_other {s : StoreState} {r : EventRecord} {runID : String}
    (h : ¬ r.runID = runID) :
    entstore.runRows { s with events := s.events ++ [r] } runID =
      entstore.runRows s runID := by
  rw [runRows_append]
  simp [h]

theorem lastSeq_append_self {s : StoreState} {r : EventRecord}
    (hseq : entstore.LastSeq s r.runID < r.seq) :
    entstore.LastSeq { s with events := s.events ++ [r] } r.runID = r.seq := by
  rw [LastSeq_eq, maxSeqVal_eq, runRows_append_self rfl,
    maxSeqRow_append_dominant]
  · rfl
  · intro x hx
    exact lt_of_le_of_lt (le_trans (mem_seq_le_maxSeqVal hx)
      (le_of_eq (LastSeq_eq s r.runID).symm)) hseq

/-- Appending a row with a dominating seq preserves well-formedness. -/
theorem wf_append {s : StoreState} {r : EventRecord} (hwf : StoreWF s)
    (hseq : r.seq = entstore.LastSeq s r.runID + 1) :
    StoreWF { s with events := s.events ++ [r] } := by
  have hdom : ∀ x ∈ entstore.runRows s r.runID, x.seq < r.seq := by
    intro x hx
    have := mem_seq_le_maxSeqVal hx
    rw [← LastSeq_eq] at this
    omega
  constructor
  · intro runID
    by_cases hrid : r.runID = runID
    · rw [runRows_append_self hrid]
      refine List.pairwise_append.mpr ⟨hwf.sorted runID, List.pairwise_singleton _ _, ?_⟩
      intro a ha b hb
      rw [List.mem_singleton] at hb
      subst hb
      subst hrid
      exact hdom a ha
    · rw [runRows_append_other hrid]
      exact hwf.sorted runID
  · intro sn hmem
    have hb := hwf.snapBound sn hmem
    refine le_trans hb ?_
    by_cases hrid : r.runID = sn.runID
    · rw [← hrid, lastSeq_append_self (by omega)]
      omega
    · rw [LastSeq_eq, LastSeq_eq, runRows_append_other hrid]

/-- Extending the log with one dominating row for the run extends
`ListEvents` by that row. -/
theorem listEvents_snoc {s : StoreState} {r : EventRecord} {runID : String}
    {afterSeq : Nat} (hrid : r.runID = runID)
    (hsort : SeqSorted (entstore.runRows s runID))
    (hgt : ∀ x ∈ entstore.runRows s runID, x.seq < r.seq)
    (hafter : afterSeq < r.seq) :
    entstore.ListEvents { s with events := s.events ++ [r] } runID afterSeq 0 =
      entstore.ListEvents s runID afterSeq 0 ++ [r] := by
  simp only [entstore.ListEvents]
  rw [runRows_append_self hrid]
  have hle : ∀ (l : List EventRecord), l.Pairwise (fun a b => a.seq ≤ b.seq) →
      (∀ x ∈ l, x.seq < r.seq) →
      entstore.sortBySeq (l ++ [r]) = entstore.sortBySeq l ++ [r] := by
    intro l hl hgt'
    rw [sortBySeq_eq_self hl,
      sortBySeq_eq_self (List.pairwise_append.mpr
        ⟨hl, List.pairwise_singleton _ _, by
          intro a ha b hb
          rw [List.mem_singleton] at hb
          subst hb
          exact le_of_lt (hgt' a ha)⟩)]
  by_cases ha : 0 < afterSeq
  · rw [if_pos ha, if_pos ha, List.filter_append]
    have hfr : List.filter (fun e => decide (afterSeq < e.seq)) [r] = [r] := by
      simp [hafter]
    rw [hfr, hle _
      (List.Pairwise.sublist (List.filter_sublist _) (hsort.imp le_of_lt))
      (fun x hx => hgt x (List.mem_of_mem_filter hx))]
    rfl
  · rw [if_neg ha, if_neg ha, hle _ (hsort.imp le_of_lt) hgt]
    rfl

/-- Appending one dominating row and reducing it extends a successful
replay. -/
theorem replayState_snoc {σ : Type} {cfg : RunnerCfg σ} {s : StoreState}
    {r : EventRecord} {cur nxt : σ} {l : Nat} {ints : List Intent} {runID : String}
    (hrepl : runtime.replayState cfg s runID = .ok (cur, l))
    (hrid : r.runID = runID)
    (hsort : SeqSorted (entstore.runRows s runID))
    (hgt : ∀ x ∈ entstore.runRows s runID, x.seq < r.seq)
    (hupto : (runtime.replayBase cfg s runID).2 < r.seq)
    (hred : cfg.reducer cur (runtime.recordToAgentEvent r) = .ok (nxt, ints)) :
    runtime.replayState cfg { s with events := s.events ++ [r] } runID =
      .ok (nxt, r.seq) := by
  have hbase : runtime.replayBase cfg { s with events := s.events ++ [r] } runID =
      runtime.replayBase cfg s runID := rfl
  have hstep : runtime.replayStep cfg (cur, l) r = .ok (nxt, r.seq) := by
    simp [runtime.replayStep, hred]
  unfold runtime.replayState at hrepl ⊢
  rw [hbase, listEvents_snoc hrid hsort hgt hupto, List.foldlM_append, hrepl]
  simp only [List.foldlM_cons, List.foldlM_nil]
  show runtime.replayStep cfg (cur, l) r >>= (fun b => pure b) = _
  rw [hstep]
  rfl

/-! ## C2 infrastructure — per-phase invariant lemmas -/

/-- The claim attempt always proceeds (entstore reports duplicates as
non-errors) and preserves well-formedness and the replayed state. -/
theorem claimStep_inv {σ : Type} {cfg : RunnerCfg σ} {runID : String}
    (it : Intent) {cur : σ} {s : StoreState}
    (hrun : runID ≠ "") (hnoop : MarkerNoop cfg)
    (hwf : StoreWF s)
    (hrepl : ∃ l, runtime.replayState cfg s runID = .ok (cur, l)) :
    ∃ s', runtime.claimStep runID it s = .proceed s'
      ∧ StoreWF s'
      ∧ (∃ l, runtime.replayState cfg s' runID = .ok (cur, l))
      ∧ s.events <+: s'.events := by
  simp only [runtime.claimStep]
  by_cases hk : it.idempotencyKey = ""
  · rw [if_pos hk]
    exact ⟨s, rfl, hwf, hrepl, List.prefix_refl _⟩
  · rw [if_neg hk]
    have hv : ¬(runtime.intentClaimEventID runID it.idempotencyKey = ""
        ∨ runID = "" ∨ ("intent_claimed" : String) = "") := by
      push_neg
      exact ⟨intentClaimEventID_ne_empty _ _, hrun, by decide⟩
    cases hc : entstore.GetEventByID s
        (runtime.intentClaimEventID runID it.idempotencyKey) with
    | some ex =>
      have hm : entstore.unmarshalIntoMap Bytes.empty =
          .ok (none : Option JsonObj) := rfl
      rw [AppendEvent_dup
        (e := { eventID := runtime.intentClaimEventID runID it.idempotencyKey
                runID := runID, type := "intent_claimed", payload := .empty })
        hm hv hc]
      exact ⟨s, rfl, hwf, hrepl, List.prefix_refl _⟩
    | none =>
      have hm : entstore.unmarshalIntoMap Bytes.empty =
          .ok (none : Option JsonObj) := rfl
      rw [AppendEvent_fresh_ok
        (e := { eventID := runtime.intentClaimEventID runID it.idempotencyKey
                runID := runID, type := "intent_claimed", payload := .empty })
        hm hv hc]
      obtain ⟨l, hl⟩ := hrepl
      refine ⟨_, rfl, ?_, ?_, List.prefix_append _ _⟩
      · exact wf_append hwf (by rw [LastSeq_eq])
      · have hredC : cfg.reducer cur (runtime.recordToAgentEvent
            { eventID := runtime.intentClaimEventID runID it.idempotencyKey
              runID := runID
              seq := maxSeqVal (entstore.runRows s runID) + 1
              type := "intent_claimed", payload := none }) = .ok (cur, []) :=
          hnoop cur _ (Or.inl rfl)
        refine ⟨maxSeqVal (entstore.runRows s runID) + 1,
          replayState_snoc hl rfl (hwf.sorted runID) ?_ ?_ hredC⟩
        · intro x hx
          show x.seq < maxSeqVal (entstore.runRows s runID) + 1
          have := mem_seq_le_maxSeqVal hx
          omega
        · show (runtime.replayBase cfg s runID).2 <
            maxSeqVal (entstore.runRows s runID) + 1
          have h3 := replayBase_le_lastSeq cfg runID hwf
          rw [LastSeq_eq] at h3
          omega

/-- The marker append always succeeds and preserves well-formedness
and the replayed state. -/
theorem markerStep_inv {σ : Type} {cfg : RunnerCfg σ} {runID : String}
    (it : Intent) {cur : σ} {s : StoreState}
    (hrun : runID ≠ "") (hnoop : MarkerNoop cfg)
    (hwf : StoreWF s)
    (hrepl : ∃ l, runtime.replayState cfg s runID = .ok (cur, l)) :
    ∃ s', runtime.markerStep runID it s = .ok s'
      ∧ StoreWF s'
      ∧ (∃ l, runtime.replayState cfg s' runID = .ok (cur, l))
      ∧ s.events <+: s'.events := by
  simp only [runtime.markerStep]
  by_cases hk : it.idempotencyKey = ""
  · rw [if_pos hk]
    exact ⟨s, rfl, hwf, hrepl, List.prefix_refl _⟩
  · rw [if_neg hk]
    have hv : ¬((runtime.agentEventToRecord runID
          { id := runtime.intentMarkerEventID runID it.idempotencyKey
            type := "intent_processed"
            payload := some (.obj
              [("key", .str it.idempotencyKey),
               ("name", .str it.name)]) }).eventID = ""
        ∨ runID = "" ∨ ("intent_processed" : String) = "") := by
      push_neg
      exact ⟨intentMarkerEventID_ne_empty _ _, hrun, by decide⟩
    cases hc : entstore.GetEventByID s
        (runtime.intentMarkerEventID runID it.idempotencyKey) with
    | some ex =>
      have hm : entstore.unmarshalIntoMap
          (Bytes.json (.obj [("key", .str it.idempotencyKey),
                             ("name", .str it.name)])) =
          .ok (some [("key", JsonVal.str it.idempotencyKey),
                     ("name", JsonVal.str it.name)] : Option JsonObj) := rfl
      rw [AppendEvent_dup
        (e := runtime.agentEventToRecord runID
          { id := runtime.intentMarkerEventID runID it.idempotencyKey
            type := "intent_processed"
            payload := some (.obj
              [("key", .str it.idempotencyKey),
               ("name", .str it.name)]) })
        hm hv hc]
      exact ⟨s, rfl, hwf, hrepl, List.prefix_refl _⟩
    | none =>
      have hm : entstore.unmarshalIntoMap
          (Bytes.json (.obj [("key", .str it.idempotencyKey),
                             ("name", .str it.name)])) =
          .ok (some [("key", JsonVal.str it.idempotencyKey),
                     ("name", JsonVal.str it.name)] : Option JsonObj) := rfl
      rw [AppendEvent_fresh_ok
        (e := runtime.agentEventToRecord runID
          { id := runtime.intentMarkerEventID runID it.idempotencyKey
            type := "intent_processed"
            payload := some (.obj
              [("key", .str it.idempotencyKey),
               ("name", .str it.name)]) })
        hm hv hc]
      obtain ⟨l, hl⟩ := hrepl
      refine ⟨_, rfl, ?_, ?_, List.prefix_append _ _⟩
      · exact wf_append hwf (by rw [LastSeq_eq])
      · have hredM : cfg.reducer cur (runtime.recordToAgentEvent
            { eventID := runtime.intentMarkerEventID runID it.idempotencyKey
              runID := runID
              seq := maxSeqVal (entstore.runRows s runID) + 1
              type := "intent_processed"
              payload := some [("key", JsonVal.str it.idempotencyKey),
                               ("name", JsonVal.str it.name)] }) =
            .ok (cur, []) :=
          hnoop cur _ (Or.inr rfl)
        refine ⟨maxSeqVal (entstore.runRows s runID) + 1,
          replayState_snoc hl rfl (hwf.sorted runID) ?_ ?_ hredM⟩
        · intro x hx
          show x.seq < maxSeqVal (entstore.runRows s runID) + 1
          have := mem_seq_le_maxSeqVal hx
          omega
        · show (runtime.replayBase cfg s runID).2 <
            maxSeqVal (entstore.runRows s runID) + 1
          have h3 := replayBase_le_lastSeq cfg runID hwf
          rw [LastSeq_eq] at h3
          omega

/-- Folding handler events with no duplicate appends preserves
well-formedness and keeps the replayed state in sync with the folded
state. -/
theorem foldEffects_inv {σ : Type} {cfg : RunnerCfg σ} {runID : String} :
    ∀ (evs : List AgentEvent) (cur : σ) (s : StoreState) (cur' : σ)
      (s' : StoreState),
    (∀ ev ∈ evs, payloadNormal ev) → StoreWF s →
    (∃ l, runtime.replayState cfg s runID = .ok (cur, l)) →
    runtime.foldEffects cfg runID evs cur s = .ok (cur', s', false) →
    StoreWF s' ∧ (∃ l, runtime.replayState cfg s' runID = .ok (cur', l))
      ∧ s.events <+: s'.events := by
  intro evs
  induction evs with
  | nil =>
    intro cur s cur' s' _ hwf hrepl hfe
    simp only [runtime.foldEffects, Except.ok.injEq, Prod.mk.injEq] at hfe
    obtain ⟨h1, h2, -⟩ := hfe
    subst h1
    subst h2
    exact ⟨hwf, hrepl, List.prefix_refl _⟩
  | cons ev rest ih =>
    intro cur s cur' s' hnorm hwf hrepl hfe
    simp only [runtime.foldEffects] at hfe
    cases hdup : entstore.GetEventByID s ev.id with
    | some x =>
      simp only [hdup, Option.isSome_some] at hfe
      cases happ : entstore.AppendEvent s (runtime.agentEventToRecord runID ev) with
      | error e =>
        simp only [happ] at hfe
        cases hfe
      | ok pr =>
        simp only [happ] at hfe
        cases hred : cfg.reducer cur ev with
        | error e =>
          simp only [hred] at hfe
          cases hfe
        | ok p =>
          simp only [hred] at hfe
          cases hfe' : runtime.foldEffects cfg runID rest p.1 pr.2 with
          | error t =>
            obtain ⟨e₂, s₂, d₂⟩ := t
            simp only [hfe'] at hfe
            cases hfe
          | ok t =>
            obtain ⟨curf, sf, d⟩ := t
            simp only [hfe', Except.ok.injEq, Prod.mk.injEq] at hfe
            rcases hfe with ⟨-, -, hflag⟩
            rw [Bool.true_or] at hflag
            cases hflag
    | none =>
      simp only [hdup, Option.isSome_none] at hfe
      cases happ : entstore.AppendEvent s (runtime.agentEventToRecord runID ev) with
      | error e =>
        simp only [happ] at hfe
        cases hfe
      | ok pr =>
        obtain ⟨row, s₁⟩ := pr
        simp only [happ] at hfe
        cases hred : cfg.reducer cur ev with
        | error e =>
          simp only [hred] at hfe
          cases hfe
        | ok p =>
          obtain ⟨next, ints⟩ := p
          simp only [hred] at hfe
          cases hfe' : runtime.foldEffects cfg runID rest next s₁ with
          | error t =>
            obtain ⟨e₂, s₂, d₂⟩ := t
            simp only [hfe'] at hfe
            cases hfe
          | ok t =>
            obtain ⟨curf, sf, d⟩ := t
            simp only [hfe', Except.ok.injEq, Prod.mk.injEq, Bool.false_or] at hfe
            obtain ⟨hcur, hs, hd⟩ := hfe
            subst hcur
            subst hs
            subst hd
            rcases AppendEvent_fresh happ hdup with ⟨hrow, hpl, hs₁⟩
            obtain ⟨l, hl⟩ := hrepl
            have hnow : payloadNormal ev := hnorm ev (List.mem_cons_self _ _)
            have hrt : runtime.recordToAgentEvent row = ev := by
              rw [hrow]
              exact roundtrip_normal hnow runID _ hpl
            have hred' : cfg.reducer cur (runtime.recordToAgentEvent row) =
                .ok (next, ints) := by
              rw [hrt]
              exact hred
            have hseqv : row.seq = maxSeqVal (entstore.runRows s runID) + 1 := by
              rw [hrow]
              rfl
            have hseq : row.seq = entstore.LastSeq s row.runID + 1 := by
              rw [LastSeq_eq, hseqv, hrow]
              rfl
            have hwf₁ : StoreWF s₁ := by
              rw [hs₁]
              exact wf_append hwf hseq
            have hrepl₁ : ∃ l', runtime.replayState cfg s₁ runID = .ok (next, l') := by
              refine ⟨row.seq, ?_⟩
              rw [hs₁]
              refine replayState_snoc hl ?_ (hwf.sorted runID) ?_ ?_ hred'
              · rw [hrow]
                rfl
              · intro x hx
                have := mem_seq_le_maxSeqVal hx
                omega
              · have h3 := replayBase_le_lastSeq cfg runID hwf
                rw [LastSeq_eq] at h3
                omega
            have hpre₁ : s.events <+: s₁.events := by
              rw [hs₁]
              exact List.prefix_append _ _
            obtain ⟨hwf', hrepl', hpre'⟩ := ih next s₁ curf sf
              (fun e he => hnorm e (List.mem_cons_of_mem _ he)) hwf₁ hrepl₁ hfe'
            exact ⟨hwf', hrepl', hpre₁.trans hpre'⟩

/-- The dispatch loop, on success with no duplicate effect appends,
preserves well-formedness, keeps the final state equal to the replay of
the final store, and only extends the log. -/
theorem runIntents_inv {σ : Type} {cfg : RunnerCfg σ} {runID : String}
    (hrun : runID ≠ "") (hnoop : MarkerNoop cfg) (hnorm : HandlersNormal cfg) :
    ∀ (its : List Intent) (cur fin : σ) (s : StoreState),
    StoreWF s →
    (∃ l, runtime.replayState cfg s runID = .ok (cur, l)) →
    (runtime.runIntents cfg runID its cur s).res = .ok fin →
    (runtime.runIntents cfg runID its cur s).effectDup = false →
    StoreWF (runtime.runIntents cfg runID its cur s).store
    ∧ (∃ l, runtime.replayState cfg
        (runtime.runIntents cfg runID its cur s).store runID = .ok (fin, l))
    ∧ s.events <+: (runtime.runIntents cfg runID its cur s).store.events := by
  intro its
  induction its with
  | nil =>
    intro cur fin s hwf hrepl hres hdup
    simp only [runtime.runIntents] at hres ⊢
    cases hres
    exact ⟨hwf, hrepl, List.prefix_refl _⟩
  | cons it rest ih =>
    intro cur fin s hwf hrepl hres hdup
    simp only [runtime.runIntents] at hres hdup ⊢
    cases hfh : runtime.findHandler cfg it with
    | none =>
      simp only [hfh] at hres hdup ⊢
      exact ih cur fin s hwf hrepl hres hdup
    | some handler =>
      simp only [hfh] at hres hdup ⊢
      obtain ⟨s₁, hcs, hwf₁, hrepl₁, hpre₁⟩ :=
        claimStep_inv it hrun hnoop hwf hrepl
      simp only [hcs] at hres hdup ⊢
      cases hh : handler.handle cur it with
      | error e =>
        simp only [hh] at hres
        cases hres
      | ok evs =>
        simp only [hh] at hres hdup ⊢
        have hmem : handler ∈ cfg.handlers := List.mem_of_find?_eq_some hfh
        cases hfe : runtime.foldEffects cfg runID evs cur s₁ with
        | error t =>
          obtain ⟨e₂, s₂, d₂⟩ := t
          simp only [hfe] at hres
          cases hres
        | ok t =>
          obtain ⟨cur₂, s₂, d⟩ := t
          simp only [hfe] at hres hdup ⊢
          cases hms : runtime.markerStep runID it s₂ with
          | error e =>
            simp only [hms] at hres
            cases hres
          | ok s₃ =>
            simp only [hms] at hres hdup ⊢
            rw [Bool.or_eq_false_iff] at hdup
            obtain ⟨hd, hdup'⟩ := hdup
            subst hd
            obtain ⟨hwf₂, hrepl₂, hpre₂⟩ := foldEffects_inv evs cur s₁ cur₂ s₂
              (hnorm handler hmem cur it evs hh) hwf₁ hrepl₁ hfe
            obtain ⟨s₃', hms', hwf₃, hrepl₃, hpre₃⟩ :=
              markerStep_inv it hrun hnoop hwf₂ hrepl₂
            rw [hms] at hms'
            cases hms'
            obtain ⟨hwfo, hreplo, hpreo⟩ := ih cur₂ fin s₃ hwf₃ hrepl₃ hres hdup'
            exact ⟨hwfo, hreplo,
              hpre₁.trans (hpre₂.trans (hpre₃.trans hpreo))⟩

/-! ## C2 — duplicate delivery of the same event id -/

/-- **C2.**  For every run and event with a non-empty id, under the
spec's reducer and handler contracts (claim/marker events are reducer
no-ops, handler and incoming payloads round-trip exactly), with
snapshotting disabled and the first cycle succeeding with no duplicate
effect append, the second delivery of the same event is detected via
`GetEventByID` and returns the first cycle's final state with the
store unchanged: no reduction of the incoming event, no append, no
intent dispatch (empty call trace). -/
theorem C2_duplicate_delivery_idempotent {σ : Type}
    (cfg : RunnerCfg σ) (s : StoreState) (runID : String) (e : AgentEvent)
    (n₁ n₂ : Nat) (sfin : σ)
    (hcodec : cfg.snapshotCodec = none)
    (hwf : StoreWF s) (hrun : runID ≠ "") (hid : e.id ≠ "")
    (hen : payloadNormal e)
    (hnoop : MarkerNoop cfg) (hnorm : HandlersNormal cfg)
    (hres : (runtime.handleEvent cfg s runID e n₁).res = .ok sfin)
    (hdupfree : (runtime.handleEvent cfg s runID e n₁).effectDup = false) :
    runtime.handleEvent cfg (runtime.handleEvent cfg s runID e n₁).store
        runID e n₂ =
      { res := .ok sfin
        store := (runtime.handleEvent cfg s runID e n₁).store
        calls := [] } := by
  simp only [runtime.handleEvent, if_neg hrun, if_neg hid] at hres hdupfree ⊢
  cases hrepl : runtime.replayState cfg s runID with
  | error err =>
    simp only [hrepl] at hres
    cases hres
  | ok p =>
    obtain ⟨cur, l⟩ := p
    simp only [hrepl] at hres hdupfree ⊢
    cases hdc : entstore.GetEventByID s e.id with
    | some x =>
      simp only [hdc] at hres hdupfree ⊢
      cases hres
      simp only [hrepl, hdc]
    | none =>
      simp only [hdc] at hres hdupfree ⊢
      cases hred : cfg.reducer cur e with
      | error err =>
        simp only [hred] at hres
        cases hres
      | ok q =>
        obtain ⟨next, intents⟩ := q
        simp only [hred] at hres hdupfree ⊢
        cases happ : entstore.AppendEvent s (runtime.agentEventToRecord runID e) with
        | error err =>
          simp only [happ] at hres
          cases hres
        | ok pr =>
          obtain ⟨row, sA⟩ := pr
          simp only [happ, hcodec] at hres hdupfree ⊢
          cases hor : (runtime.runIntents cfg runID intents next sA).res with
          | error e2 =>
            simp only [hor] at hres
            cases hres
          | ok cur' =>
            simp only [hor] at hres hdupfree ⊢
            rcases AppendEvent_fresh happ hdc with ⟨hrow, hpl, hsA⟩
            have hrt : runtime.recordToAgentEvent row = e := by
              rw [hrow]
              exact roundtrip_normal hen runID _ hpl
            have hred' : cfg.reducer cur (runtime.recordToAgentEvent row) =
                .ok (next, intents) := by
              rw [hrt]
              exact hred
            have hseqv : row.seq = maxSeqVal (entstore.runRows s runID) + 1 := by
              rw [hrow]
              rfl
            have hseq : row.seq = entstore.LastSeq s row.runID + 1 := by
              rw [LastSeq_eq, hseqv, hrow]
              rfl
            have hwfA : StoreWF sA := by
              rw [hsA]
              exact wf_append hwf hseq
            have hreplA : ∃ l', runtime.replayState cfg sA runID = .ok (next, l') := by
              refine ⟨row.seq, ?_⟩
              rw [hsA]
              refine replayState_snoc hrepl ?_ (hwf.sorted runID) ?_ ?_ hred'
              · rw [hrow]
                rfl
              · intro x hx
                have := mem_seq_le_maxSeqVal hx
                omega
              · have h3 := replayBase_le_lastSeq cfg runID hwf
                rw [LastSeq_eq] at h3
                omega
            obtain ⟨hwfO, ⟨lO, hreplO⟩, hpreO⟩ :=
              runIntents_inv hrun hnoop hnorm intents next sfin sA hwfA hreplA
                (hor.trans hres) hdupfree
            have hgetA : entstore.GetEventByID sA e.id = some row := by
              rw [hsA]
              refine getEventByID_append_new hdc ?_
              rw [hrow]
              rfl
            have hgetO : entstore.GetEventByID
                (runtime.runIntents cfg runID intents next sA).store e.id =
                some row :=
              getEventByID_extend hpreO hgetA
            simp only [runtime.handleEvent, if_neg hrun, if_neg hid, hreplO, hgetO]

/-- Witness for C2: the counter fixture on an empty store — the first
delivery of `inc n=1` (id `e0`) reaches count 3; re-delivering `e0`
returns count 3 with the store unchanged and no handler call (spec
scenario 2). -/
theorem C2_duplicate_delivery_idempotent_witness :
    runtime.handleEvent counterCfg
        (runtime.handleEvent counterCfg StoreState.empty "run-1"
          (incEvent "e0") 0).store
        "run-1" (incEvent "e0") 0 =
      { res := .ok { run := "run-1", count := 3 }
        store := (runtime.handleEvent counterCfg StoreState.empty "run-1"
          (incEvent "e0") 0).store
        calls := [] } :=
  C2_duplicate_delivery_idempotent counterCfg StoreState.empty "run-1"
    (incEvent "e0") 0 0 { run := "run-1", count := 3 }
    rfl StoreWF.empty (by decide) (by decide)
    (Or.inr ⟨[("n", .num 1)], rfl⟩)
    (by
      intro st e h
      show counterReducer "" st e = .ok (st, [])
      unfold counterReducer
      rcases h with h | h <;> rw [h] <;> rfl)
    (by
      intro h hm st it evs hh ev hev
      simp only [counterCfg] at hm
      rw [List.mem_singleton] at hm
      subst hm
      simp only [counterHandler] at hh
      cases hh
      rw [List.mem_singleton] at hev
      subst hev
      exact Or.inr ⟨[("n", .num (argsN it.args))], rfl⟩)
    rfl rfl

/-! ## C1 — the claim event does not gate the handler -/

/-- **C1 (code bug).**  The idempotent-intent scenario of the spec
(scenario 3: two `inc` events with distinct ids, reducer always
emitting the `emit_added` intent with key `add-two`): after the first
cycle the claim event `intent-claim-run-idem-add-two` is present in
the store, yet the second cycle calls the handler *again* — the ghost
call trace of each cycle contains the keyed intent — and the final
count is 6 where the spec requires 3.  The cause: the runner skips
only when the claim `AppendEvent` returns an error
(`runner.go:119-125`), but entstore returns the existing claim with a
nil error on duplicates (`store.go:139-157`), so the skip branch never
fires. -/
theorem C1_claim_gate_not_enforced :
    (entstore.GetEventByID
        (runtime.handleEvent idemCfg StoreState.empty "run-idem"
          (incEvent "inc1") 0).store
        (runtime.intentClaimEventID "run-idem" "add-two")).isSome = true
    ∧ (runtime.handleEvent idemCfg StoreState.empty "run-idem"
        (incEvent "inc1") 0).calls =
        [{ name := "emit_added", args := [("n", .num 2)]
           idempotencyKey := "add-two" }]
    ∧ (runtime.handleEvent idemCfg
        (runtime.handleEvent idemCfg StoreState.empty "run-idem"
          (incEvent "inc1") 0).store
        "run-idem" (incEvent "inc2") 0).calls =
        [{ name := "emit_added", args := [("n", .num 2)]
           idempotencyKey := "add-two" }]
    ∧ (runtime.handleEvent idemCfg
        (runtime.handleEvent idemCfg StoreState.empty "run-idem"
          (incEvent "inc1") 0).store
        "run-idem" (incEvent "inc2") 0).res =
        .ok { run := "run-idem", count := 6 } :=
  ⟨rfl, rfl, rfl, rfl⟩

end Orch
